import Mathlib

/-!
Verification of the discord-purge bulk purge engine (src/main.go).

The Go source is shallowly embedded: pure helpers become Lean functions on
String/Nat/ℚ, the network-driven loops become fueled/script-driven recursions
over explicit response scripts, and the orchestration phases become folds over
explicit discovery inputs.  Machine integers are modelled as Nat (Go's
strconv.ParseUint is 64-bit bounded, made explicit with 2 ^ 64); Go strings are
Lean strings together with their UTF-8 byte sequences, because Go's len and
string comparison are byte-based.
-/

/-- UTF-8 encoding of a single character as its byte values.  Go strings are
byte slices holding UTF-8, so Go's len(s) and bytewise string order are
derived from these bytes. -/
def utf8Bytes (c : Char) : List Nat :=
  let n := c.toNat
  if n < 128 then [n]
  else if n < 2048 then
    [192 + n / 64, 128 + n % 64]
  else if n < 65536 then
    [224 + n / 4096, 128 + n / 64 % 64, 128 + n % 64]
  else
    [240 + n / 262144, 128 + n / 4096 % 64, 128 + n / 64 % 64, 128 + n % 64]

/-- The UTF-8 bytes of a whole string, i.e. the byte slice a Go string is. -/
def goBytes (s : String) : List Nat :=
  (s.toList.map utf8Bytes).flatten

/-- Go's len(s): number of bytes of the UTF-8 encoding. -/
def goLen (s : String) : Nat :=
  (goBytes s).length

/-- Bytewise lexicographic order, Go's built-in < on strings. -/
def bytesLt : List Nat → List Nat → Bool
  | [], [] => false
  | [], _ :: _ => true
  | _ :: _, [] => false
  | a :: as, b :: bs =>
    if a < b then true
    else if a = b then bytesLt as bs
    else false

/-- Go's s1 < s2 on strings (bytewise lexicographic on UTF-8 bytes). -/
def goStrLt (a b : String) : Bool :=
  bytesLt (goBytes a) (goBytes b)

/-- Digit accumulation of Go strconv.ParseUint in base 10. -/
def digitsToNat (cs : List Char) : Nat :=
  cs.foldl (fun n c => n * 10 + (c.toNat - Char.toNat '0')) 0

/-- Embedding of Go strconv.ParseUint(s, 10, 64): succeeds exactly when s is
non-empty, consists solely of decimal digits, and its value fits in 64 bits;
every other input (empty, signs, hex, overflow, garbage) yields an error,
modelled as none. -/
def parseUint64 (s : String) : Option Nat :=
  if s = "" then none
  else if s.toList.all Char.isDigit then
    let v := digitsToNat s.toList
    if v < 2 ^ 64 then some v else none
  else none

/-- Embedding of olderSnowflakeID (main.go lines 258-285): an empty candidate
keeps the current bound, an empty current bound is replaced by the candidate;
when both parse as uint64 the numerically smaller wins; otherwise the
comparison falls back to Go byte length, then bytewise order. -/
def olderSnowflakeID (currentOldest candidate : String) : String :=
  if candidate = "" then currentOldest
  else if currentOldest = "" then candidate
  else
    match parseUint64 currentOldest, parseUint64 candidate with
    | some cur, some cand => if cand < cur then candidate else currentOldest
    | _, _ =>
      if goLen candidate < goLen currentOldest then candidate
      else if goLen currentOldest < goLen candidate then currentOldest
      else if goStrLt candidate currentOldest then candidate
      else currentOldest

/-- Embedding of previousSnowflakeID (main.go lines 287-293): decrement when
the id parses as uint64 and is non-zero, identity otherwise. -/
def previousSnowflakeID (id : String) : String :=
  match parseUint64 id with
  | none => id
  | some n => if n = 0 then id else toString (n - 1)

theorem parseUint64_ne_empty {s : String} {v : Nat} (h : parseUint64 s = some v) :
    s ≠ "" := by
  intro he
  simp [parseUint64, he] at h

/-- C3: for cursor strings that both parse as non-negative integers,
olderSnowflakeID returns one of its two arguments and that argument parses to
the smaller of the two values; previousSnowflakeID of a positive-valued cursor
is the decimal string of its value minus one; and previousSnowflakeID does not
underflow on "0". -/
theorem c3_ordering_numeric (a b x : String) (va vb v : Nat)
    (ha : parseUint64 a = some va) (hb : parseUint64 b = some vb)
    (hx : parseUint64 x = some v) (hv : 0 < v) :
    (olderSnowflakeID a b = a ∨ olderSnowflakeID a b = b) ∧
    parseUint64 (olderSnowflakeID a b) = some (min va vb) ∧
    previousSnowflakeID x = toString (v - 1) ∧
    previousSnowflakeID "0" = "0" := by
  have hane : a ≠ "" := parseUint64_ne_empty ha
  have hbne : b ≠ "" := parseUint64_ne_empty hb
  have hred : olderSnowflakeID a b = if vb < va then b else a := by
    unfold olderSnowflakeID
    rw [if_neg hbne, if_neg hane, ha, hb]
  have hprev : previousSnowflakeID x = toString (v - 1) := by
    unfold previousSnowflakeID
    rw [hx]
    simp [Nat.pos_iff_ne_zero.mp hv]
  have hzero : previousSnowflakeID "0" = "0" := by decide
  refine ⟨?_, ?_, hprev, hzero⟩
  · rw [hred]
    by_cases h : vb < va
    · right; rw [if_pos h]
    · left; rw [if_neg h]
  · rw [hred]
    by_cases h : vb < va
    · rw [if_pos h, hb, Nat.min_eq_right (Nat.le_of_lt h)]
    · rw [if_neg h, ha, Nat.min_eq_left (Nat.le_of_not_lt h)]

/-- C3 witness: instantiation at a = "5", b = "3", x = "10". -/
theorem c3_ordering_numeric_witness :
    (olderSnowflakeID "5" "3" = "5" ∨ olderSnowflakeID "5" "3" = "3") ∧
    parseUint64 (olderSnowflakeID "5" "3") = some (min 5 3) ∧
    previousSnowflakeID "10" = toString (10 - 1) ∧
    previousSnowflakeID "0" = "0" :=
  c3_ordering_numeric "5" "3" "10" 5 3 10 (by decide) (by decide) (by decide)
    (by decide)

/-- C4: both ordering helpers are total — olderSnowflakeID always returns one
of its two arguments and previousSnowflakeID either echoes its argument or
returns the decimal decrement — and whenever both arguments are non-empty and
at least one fails to parse as uint64, olderSnowflakeID degrades to string
comparison by Go byte length first, then bytewise lexicographic order. -/
theorem c4_ordering_total_fallback :
    (∀ a b : String, olderSnowflakeID a b = a ∨ olderSnowflakeID a b = b) ∧
    (∀ x : String, previousSnowflakeID x = x ∨
      ∃ n, parseUint64 x = some n ∧ previousSnowflakeID x = toString (n - 1)) ∧
    (∀ a b : String, a ≠ "" → b ≠ "" →
      (parseUint64 a = none ∨ parseUint64 b = none) →
      olderSnowflakeID a b =
        if goLen b < goLen a then b
        else if goLen a < goLen b then a
        else if goStrLt b a then b
        else a) := by
  refine ⟨?_, ?_, ?_⟩
  · intro a b
    unfold olderSnowflakeID
    by_cases hb : b = ""
    · left; rw [if_pos hb]
    · rw [if_neg hb]
      by_cases ha : a = ""
      · right; rw [if_pos ha]
      · rw [if_neg ha]
        rcases parseUint64 a with _ | cur <;> rcases parseUint64 b with _ | cand
        all_goals simp only []
        · split_ifs <;> simp
        · split_ifs <;> simp
        · split_ifs <;> simp
        · split_ifs <;> simp
  · intro x
    unfold previousSnowflakeID
    rcases hp : parseUint64 x with _ | n
    · left; rfl
    · by_cases hn : n = 0
      · left
        show (if n = 0 then x else toString (n - 1)) = x
        rw [if_pos hn]
      · right
        refine ⟨n, rfl, ?_⟩
        show (if n = 0 then x else toString (n - 1)) = toString (n - 1)
        rw [if_neg hn]
  · intro a b ha hb hnp
    unfold olderSnowflakeID
    rw [if_neg hb, if_neg ha]
    rcases hnp with h | h
    · rw [h]
    · rw [h]
      cases hpa : parseUint64 a <;> rfl

/-- C4 witness: instantiation at the malformed pair a = "x1", b = "22" (equal
byte length, so the bytewise comparison decides) and at x = "abc". -/
theorem c4_ordering_total_fallback_witness :
    (olderSnowflakeID "x1" "22" = "x1" ∨ olderSnowflakeID "x1" "22" = "22") ∧
    olderSnowflakeID "x1" "22" = "22" ∧
    previousSnowflakeID "abc" = "abc" := by
  have h1 := c4_ordering_total_fallback.1 "x1" "22"
  have h3 := c4_ordering_total_fallback.2.2 "x1" "22" (by decide) (by decide)
    (Or.inl (by decide))
  refine ⟨h1, h3.trans (by decide), ?_⟩
  have h2 := c4_ordering_total_fallback.2.1 "abc"
  rcases h2 with h | ⟨n, hn, _⟩
  · exact h
  · have hnone : parseUint64 "abc" = none := by decide
    rw [hnone] at hn
    exact Option.noConfusion hn

/-- Outcome of one call to requestWithBody as seen by its caller: the
function either returned with a nil error carrying this status (a 2xx, or any
non-429 status passed through as-is for the caller to interpret), or the
retry budget was exhausted on persistent 429s, or the transport failed. -/
inductive ReqOutcome where
  | ok (status : Nat)
  | rateLimited
  | transport
deriving DecidableEq, Repr

/-- Embedding of the retry loop of requestWithBody (main.go lines 159-234)
over the script of successive HTTP response statuses.  The first argument is
the remaining iterations of the for-loop (5 at entry); the second component
of the result is the number of HTTP calls issued.  An exhausted script models
a transport failure on the next call. -/
def requestAttempts : Nat → List Nat → ReqOutcome × Nat
  | 0, _ => (ReqOutcome.rateLimited, 0)
  | _ + 1, [] => (ReqOutcome.transport, 0)
  | n + 1, s :: rest =>
    if 200 ≤ s ∧ s < 300 then (ReqOutcome.ok s, 1)
    else if s = 429 then
      let r := requestAttempts n rest
      (r.1, r.2 + 1)
    else (ReqOutcome.ok s, 1)

/-- requestWithBody enters its for-loop with a budget of 5 attempts. -/
def requestWithBody (script : List Nat) : ReqOutcome × Nat :=
  requestAttempts 5 script

/-- C2 counterexample: fed five consecutive 429 responses followed by a 200,
the executor does not return the 200 result after six calls — the for-loop
allows only 5 attempts in total, so it gives up with the hard rate-limit
failure after the fifth 429 and never issues a sixth call. -/
theorem c2_counterexample :
    requestWithBody [429, 429, 429, 429, 429, 200] = (ReqOutcome.rateLimited, 5) ∧
    requestWithBody [429, 429, 429, 429, 429, 200] ≠ (ReqOutcome.ok 200, 6) := by
  decide

/-- C2 amended: the retry budget is five total attempts (HTTP calls).  Four
consecutive 429 responses followed by a 200 yield the 200 result after
exactly five calls; a fifth consecutive 429 exhausts the budget and yields a
hard failure after exactly five calls, regardless of what would come next. -/
theorem c2_retry_budget :
    (∀ rest : List Nat,
      requestWithBody (429 :: 429 :: 429 :: 429 :: 200 :: rest) = (ReqOutcome.ok 200, 5)) ∧
    (∀ rest : List Nat,
      requestWithBody (429 :: 429 :: 429 :: 429 :: 429 :: rest) = (ReqOutcome.rateLimited, 5)) := by
  constructor <;> intro rest <;> rfl

/-- Does the first list occur at the start of the second? (Go bytes.HasPrefix
shape, used to build strings.Contains below.) -/
def charsStartWith : List Char → List Char → Bool
  | [], _ => true
  | _ :: _, [] => false
  | a :: as, b :: bs => if a = b then charsStartWith as bs else false

/-- Does the pattern occur anywhere inside the list? -/
def charsWithin (pat : List Char) : List Char → Bool
  | [] => charsStartWith pat []
  | c :: t => if charsStartWith pat (c :: t) then true else charsWithin pat t

/-- Go strings.Contains(s, pat). -/
def strContains (s pat : String) : Bool :=
  charsWithin pat.toList s.toList

/-- The priority chain of the 429 wait computation exactly as the code
performs it (main.go lines 188-207): start from the default 5, overwrite with
a parsed Retry-After header, raise to a parsed X-RateLimit-Reset-After header
when larger, raise to the response-body retry_after field when that is
positive and larger.  Headers are modelled by their parse results (none =
absent or unparsable); the body field by its decoded value (0 when the field
is absent or the body does not decode); float64 arithmetic is modelled by
exact rationals. -/
def codePriorityWait (retryAfterHdr resetAfterHdr : Option ℚ) (bodyRetryAfter : ℚ) : ℚ :=
  let w0 : ℚ :=
    match retryAfterHdr with
    | some v => v
    | none => 5
  let w1 : ℚ :=
    match resetAfterHdr with
    | some v => if w0 < v then v else w0
    | none => w0
  if 0 < bodyRetryAfter ∧ w1 < bodyRetryAfter then bodyRetryAfter else w1

/-- The safety addend and minimum floor (main.go lines 210-213). -/
def addendFloor (w : ℚ) : ℚ :=
  if w + 1 < 2 then 2 else w + 1

/-- The stricter floor applied to archived-private-thread discovery GETs
(main.go lines 216-218). -/
def routeFloor (method path : String) (w : ℚ) : ℚ :=
  if method = "GET" ∧ strContains path "/users/@me/threads/archived/private" = true ∧ w < 6
  then 6 else w

/-- The complete wait computation of the 429 branch of requestWithBody. -/
def computeWaitTime (method path : String)
    (retryAfterHdr resetAfterHdr : Option ℚ) (bodyRetryAfter : ℚ) : ℚ :=
  routeFloor method path
    (addendFloor (codePriorityWait retryAfterHdr resetAfterHdr bodyRetryAfter))

/-- The wait computation exactly as the specification words it: the
Retry-After value if present else 5, replaced by X-RateLimit-Reset-After if
larger, replaced by the body retry_after if larger than both (with no
positivity guard), then the same addend and floors. -/
def specWaitTime (method path : String)
    (retryAfterHdr resetAfterHdr : Option ℚ) (bodyRetryAfter : ℚ) : ℚ :=
  let w0 : ℚ :=
    match retryAfterHdr with
    | some v => v
    | none => 5
  let w1 : ℚ :=
    match resetAfterHdr with
    | some v => if w0 < v then v else w0
    | none => w0
  routeFloor method path (addendFloor (if w1 < bodyRetryAfter then bodyRetryAfter else w1))

theorem addendFloor_guard (w1 b : ℚ) :
    addendFloor (if 0 < b ∧ w1 < b then b else w1) =
    addendFloor (if w1 < b then b else w1) := by
  by_cases hw : w1 < b
  · by_cases hb : 0 < b
    · rw [if_pos ⟨hb, hw⟩, if_pos hw]
    · have hb' : b ≤ 0 := le_of_not_lt hb
      rw [if_neg (fun h => hb h.1), if_pos hw]
      unfold addendFloor
      rw [if_pos (by linarith), if_pos (by linarith)]
  · rw [if_neg (fun h => hw h.2), if_neg hw]

theorem two_le_addendFloor (w : ℚ) : 2 ≤ addendFloor w := by
  unfold addendFloor
  split_ifs with h
  · exact le_refl 2
  · linarith [not_lt.mp h]

theorem two_le_routeFloor (m p : String) (w : ℚ) (h2 : 2 ≤ w) :
    2 ≤ routeFloor m p w := by
  unfold routeFloor
  split_ifs with h
  · linarith
  · exact h2

theorem six_le_routeFloor (m p : String) (w : ℚ) (hm : m = "GET")
    (hp : strContains p "/users/@me/threads/archived/private" = true) :
    6 ≤ routeFloor m p w := by
  unfold routeFloor
  split_ifs with h
  · exact le_refl 6
  · exact le_of_not_lt (fun hw => h ⟨hm, hp, hw⟩)

/-- C5: on a 429 the computed wait equals the specification's description —
the Retry-After header value if present (else 5), replaced by the
X-RateLimit-Reset-After value if larger, replaced by the body retry_after if
larger than both, then incremented by the safety addend 1 and floored at 2,
and additionally floored at 6 for a GET on the archived-private-thread
discovery route; moreover the result is always at least 2, and at least 6 on
that route. -/
theorem c5_wait_computation (method path : String)
    (ra reset : Option ℚ) (b : ℚ) :
    computeWaitTime method path ra reset b = specWaitTime method path ra reset b ∧
    2 ≤ computeWaitTime method path ra reset b ∧
    (method = "GET" →
      strContains path "/users/@me/threads/archived/private" = true →
      6 ≤ computeWaitTime method path ra reset b) := by
  refine ⟨?_, ?_, ?_⟩
  · simp only [computeWaitTime, specWaitTime, codePriorityWait]
    exact congrArg (routeFloor method path) (addendFloor_guard _ _)
  · exact two_le_routeFloor _ _ _ (two_le_addendFloor _)
  · intro hm hp
    exact six_le_routeFloor _ _ _ hm hp

/-- C5 witness: a GET on the joined-archived-private-thread route with a
Retry-After of 3 is raised by the route floor to 6. -/
theorem c5_wait_computation_witness :
    computeWaitTime "GET" "/channels/1/users/@me/threads/archived/private?limit=100"
        (some 3) none 0 =
      specWaitTime "GET" "/channels/1/users/@me/threads/archived/private?limit=100"
        (some 3) none 0 ∧
    6 ≤ computeWaitTime "GET" "/channels/1/users/@me/threads/archived/private?limit=100"
        (some 3) none 0 := by
  have h := c5_wait_computation "GET"
    "/channels/1/users/@me/threads/archived/private?limit=100" (some 3) none 0
  exact ⟨h.1, h.2.2 rfl (by decide)⟩

/-- The exclusion choices the user made before the purge starts (main.go
PurgeOptions, lines 1163-1166), modelled as lists of identifiers; the nil/
empty Go map becomes the empty list. -/
structure PurgeOpts where
  excludedGuildIDs : List String
  excludedDMChannelIDs : List String
deriving DecidableEq, Repr

/-- isGuildExcluded (main.go lines 1168-1170). -/
def isGuildExcluded (o : PurgeOpts) (g : String) : Bool :=
  o.excludedGuildIDs.contains g

/-- isDMExcluded (main.go lines 1172-1174). -/
def isDMExcluded (o : PurgeOpts) (d : String) : Bool :=
  o.excludedDMChannelIDs.contains d

/-- What the discovery collaborators return to PurgeAll, in call order:
guild ids from GetAllGuilds, DM channel ids from GetDMChannels, the channel
ids successfully re-opened from relationships in phase 2b, and the data
package channel ids (none when no --data-package path was supplied). -/
structure DiscoveryInput where
  guilds : List String
  openDMs : List String
  relDMs : List String
  packageDMs : Option (List String)
deriving DecidableEq, Repr

/-- Phase 1 walker schedule (main.go lines 1194-1246): the guild ids on which
SearchGuildMessages is invoked, in order.  The source filters the guild list
only when the exclusion set is non-empty; message-delete calls for a guild
are issued only inside its SearchGuildMessages invocation. -/
def phase1GuildWalks (inp : DiscoveryInput) (o : PurgeOpts) : List String :=
  if o.excludedGuildIDs = [] then inp.guilds
  else inp.guilds.filter (fun g => !(isGuildExcluded o g))

/-- The mutable state threaded through phases 2a-2c: the keys of the
processedDMs map in insertion order, and the trace of SearchDMMessages
invocations (one entry per DM channel the message-deletion walker is run
on). -/
structure DMState where
  processed : List String
  walks : List String
deriving DecidableEq, Repr

/-- processedDMs[id] = true: a Go map insert, a no-op on a present key. -/
def markProcessed (l : List String) (id : String) : List String :=
  if id ∈ l then l else l ++ [id]

/-- One iteration of the phase 2a loop (main.go lines 1280-1297): mark the
channel processed and run the DM walker on it. -/
def phase2aStep (st : DMState) (ch : String) : DMState :=
  { processed := markProcessed st.processed ch, walks := st.walks ++ [ch] }

/-- channelsToProcess of phase 2a (main.go lines 1259-1272): the open DM list,
filtered by the exclusion set only when that set is non-empty. -/
def phase2aList (o : PurgeOpts) (openDMs : List String) : List String :=
  if o.excludedDMChannelIDs = [] then openDMs
  else openDMs.filter (fun ch => !(isDMExcluded o ch))

/-- Phase 2a (main.go lines 1255-1297): every channel surviving the filter is
marked processed and walked. -/
def phase2a (o : PurgeOpts) (openDMs : List String) (st : DMState) : DMState :=
  (phase2aList o openDMs).foldl phase2aStep st

/-- One iteration of the phase 2b loop (main.go lines 1315-1357): skip if the
re-opened channel is already processed, skip if excluded, otherwise mark
processed and walk. -/
def phase2bStep (o : PurgeOpts) (st : DMState) (ch : String) : DMState :=
  if ch ∈ st.processed then st
  else if isDMExcluded o ch then st
  else { processed := markProcessed st.processed ch, walks := st.walks ++ [ch] }

/-- Phase 2b over the successfully re-opened relationship DM channels. -/
def phase2b (o : PurgeOpts) (relDMs : List String) (st : DMState) : DMState :=
  relDMs.foldl (phase2bStep o) st

/-- One iteration of the phase 2c loop (main.go lines 1383-1405): skip if
excluded, skip if already processed, otherwise mark processed and walk (the
walker falls back to the history scan on error, still on this channel). -/
def phase2cStep (o : PurgeOpts) (st : DMState) (ch : String) : DMState :=
  if isDMExcluded o ch then st
  else if ch ∈ st.processed then st
  else { processed := markProcessed st.processed ch, walks := st.walks ++ [ch] }

/-- Phase 2c over the data package channel ids, when a path was supplied. -/
def phase2c (o : PurgeOpts) (pkg : Option (List String)) (st : DMState) : DMState :=
  match pkg with
  | none => st
  | some ids => ids.foldl (phase2cStep o) st

/-- The DM discovery/deletion phases 2a-2c run in order from the empty
state. -/
def dmPhases (inp : DiscoveryInput) (o : PurgeOpts) : DMState :=
  phase2c o inp.packageDMs (phase2b o inp.relDMs (phase2a o inp.openDMs ⟨[], []⟩))

/-- Phase 3b enumeration (main.go lines 1469-1476): removeReactionsFromChannel
is invoked once per key of processedDMs, with no exclusion check at sweep
time. -/
def phase3bSweeps (inp : DiscoveryInput) (o : PurgeOpts) : List String :=
  (dmPhases inp o).processed

theorem mem_markProcessed {l : List String} {x a : String} :
    a ∈ markProcessed l x ↔ a ∈ l ∨ a = x := by
  unfold markProcessed
  split_ifs with h
  · constructor
    · exact Or.inl
    · rintro (ha | rfl)
      · exact ha
      · exact h
  · simp [List.mem_append]

theorem markProcessed_nodup {l : List String} {x : String} (h : l.Nodup) :
    (markProcessed l x).Nodup := by
  unfold markProcessed
  split_ifs with hx
  · exact h
  · simpa [List.nodup_append] using ⟨h, hx⟩

theorem foldl_phase2aStep_walks (l : List String) (st : DMState) :
    (l.foldl phase2aStep st).walks = st.walks ++ l := by
  induction l generalizing st with
  | nil => simp
  | cons c t ih => simp [List.foldl_cons, phase2aStep, ih]

theorem foldl_phase2aStep_processed (l : List String) (st : DMState) :
    (l.foldl phase2aStep st).processed = l.foldl markProcessed st.processed := by
  induction l generalizing st with
  | nil => rfl
  | cons c t ih => simp [List.foldl_cons, phase2aStep, ih]

theorem mem_foldl_markProcessed {a : String} (l p : List String) :
    a ∈ l.foldl markProcessed p ↔ a ∈ p ∨ a ∈ l := by
  induction l generalizing p with
  | nil => simp
  | cons c t ih =>
    rw [List.foldl_cons, ih, mem_markProcessed]
    simp [List.mem_cons]
    tauto

theorem nodup_foldl_markProcessed (l p : List String) (h : p.Nodup) :
    (l.foldl markProcessed p).Nodup := by
  induction l generalizing p with
  | nil => exact h
  | cons c t ih => exact ih _ (markProcessed_nodup h)

theorem mem_phase2aList {o : PurgeOpts} {dms : List String} {id : String} :
    id ∈ phase2aList o dms ↔ id ∈ dms ∧ isDMExcluded o id = false := by
  unfold phase2aList
  split_ifs with h
  · simp [isDMExcluded, h]
  · simp [List.mem_filter]

theorem nodup_phase2aList {o : PurgeOpts} {dms : List String} (h : dms.Nodup) :
    (phase2aList o dms).Nodup := by
  unfold phase2aList
  split_ifs with hc
  · exact h
  · exact h.filter _

theorem foldl_phase2bStep_preserve {o : PurgeOpts} {P : DMState → Prop}
    (hstep : ∀ st ch, P st → P (phase2bStep o st ch))
    (l : List String) (st : DMState) (h : P st) :
    P (l.foldl (phase2bStep o) st) := by
  induction l generalizing st with
  | nil => exact h
  | cons c t ih => exact ih _ (hstep st c h)

theorem phase2cStep_eq_phase2bStep (o : PurgeOpts) :
    phase2cStep o = phase2bStep o := by
  funext st ch
  unfold phase2cStep phase2bStep
  by_cases h1 : isDMExcluded o ch = true <;> by_cases h2 : ch ∈ st.processed <;>
    simp [h1, h2]

theorem phase2c_some_eq (o : PurgeOpts) (l : List String) (st : DMState) :
    phase2c o (some l) st = phase2b o l st := by
  unfold phase2c phase2b
  rw [phase2cStep_eq_phase2bStep]

theorem phase2bStep_processed_mono {o : PurgeOpts} {st : DMState} {ch a : String}
    (h : a ∈ st.processed) : a ∈ (phase2bStep o st ch).processed := by
  unfold phase2bStep
  split_ifs with h1 h2
  · exact h
  · exact h
  · exact mem_markProcessed.mpr (Or.inl h)

theorem phase2b_processed_mono {o : PurgeOpts} {l : List String} {st : DMState}
    {a : String} (h : a ∈ st.processed) : a ∈ (phase2b o l st).processed :=
  foldl_phase2bStep_preserve (P := fun st => a ∈ st.processed)
    (fun _ _ => phase2bStep_processed_mono) l st h

theorem phase2bStep_excluded_untouched {o : PurgeOpts} {st : DMState} {ch d : String}
    (hd : isDMExcluded o d = true) (h : d ∉ st.processed ∧ d ∉ st.walks) :
    d ∉ (phase2bStep o st ch).processed ∧ d ∉ (phase2bStep o st ch).walks := by
  unfold phase2bStep
  split_ifs with h1 h2
  · exact h
  · exact h
  · constructor
    · intro hm
      rcases mem_markProcessed.mp hm with hm | hm
      · exact h.1 hm
      · exact h2 (hm ▸ hd)
    · intro hm
      rcases List.mem_append.mp hm with hm | hm
      · exact h.2 hm
      · exact h2 ((List.mem_singleton.mp hm) ▸ hd)

theorem phase2b_excluded_untouched {o : PurgeOpts} {l : List String} {st : DMState}
    {d : String} (hd : isDMExcluded o d = true)
    (h : d ∉ st.processed ∧ d ∉ st.walks) :
    d ∉ (phase2b o l st).processed ∧ d ∉ (phase2b o l st).walks :=
  foldl_phase2bStep_preserve (P := fun st => d ∉ st.processed ∧ d ∉ st.walks)
    (fun _ _ => phase2bStep_excluded_untouched hd) l st h

theorem phase2bStep_nodup {o : PurgeOpts} {st : DMState} {ch : String}
    (h : st.processed.Nodup) : (phase2bStep o st ch).processed.Nodup := by
  unfold phase2bStep
  split_ifs with h1 h2
  · exact h
  · exact h
  · exact markProcessed_nodup h

theorem phase2b_nodup {o : PurgeOpts} {l : List String} {st : DMState}
    (h : st.processed.Nodup) : (phase2b o l st).processed.Nodup :=
  foldl_phase2bStep_preserve (P := fun st => st.processed.Nodup)
    (fun _ _ => phase2bStep_nodup) l st h

/-- The deduplication invariant maintained by phases 2b/2c: every channel is
walked at most once, and every walked channel is in the processed set. -/
def WalksInv (st : DMState) : Prop :=
  (∀ id, st.walks.count id ≤ 1) ∧ ∀ id ∈ st.walks, id ∈ st.processed

theorem phase2bStep_walksInv {o : PurgeOpts} {st : DMState} {ch : String}
    (h : WalksInv st) : WalksInv (phase2bStep o st ch) := by
  unfold phase2bStep
  split_ifs with h1 h2
  · exact h
  · exact h
  · constructor
    · intro id
      rw [List.count_append]
      by_cases hid : id = ch
      · subst hid
        have hnm : id ∉ st.walks := fun hm => h1 (h.2 id hm)
        rw [List.count_eq_zero.mpr hnm]
        simp
      · have : List.count id [ch] = 0 :=
          List.count_eq_zero.mpr (by simp [hid])
        rw [this]
        simpa using h.1 id
    · intro id hm
      rcases List.mem_append.mp hm with hm | hm
      · exact mem_markProcessed.mpr (Or.inl (h.2 id hm))
      · exact mem_markProcessed.mpr (Or.inr (List.mem_singleton.mp hm))

theorem phase2b_walksInv {o : PurgeOpts} {l : List String} {st : DMState}
    (h : WalksInv st) : WalksInv (phase2b o l st) :=
  foldl_phase2bStep_preserve (P := WalksInv) (fun _ _ => phase2bStep_walksInv) l st h

theorem phase2b_mem_processed {o : PurgeOpts} {l : List String} {a : String}
    (st : DMState) (ha : a ∈ l) (hex : isDMExcluded o a = false) :
    a ∈ (phase2b o l st).processed := by
  induction l generalizing st with
  | nil => cases ha
  | cons c t ih =>
    rcases List.mem_cons.mp ha with rfl | ht
    · have hstep : a ∈ (phase2bStep o st a).processed := by
        unfold phase2bStep
        split_ifs with h1 h2
        · exact h1
        · rw [hex] at h2
          cases h2
        · exact mem_markProcessed.mpr (Or.inr rfl)
      exact foldl_phase2bStep_preserve (P := fun st => a ∈ st.processed)
        (fun _ _ => phase2bStep_processed_mono) t _ hstep
    · exact ih _ ht

theorem isDMExcluded_eq_true {o : PurgeOpts} {d : String} :
    isDMExcluded o d = true ↔ d ∈ o.excludedDMChannelIDs := by
  simp [isDMExcluded]

theorem isGuildExcluded_eq_true {o : PurgeOpts} {g : String} :
    isGuildExcluded o g = true ↔ g ∈ o.excludedGuildIDs := by
  simp [isGuildExcluded]

theorem phase2c_processed_mono {o : PurgeOpts} {pkg : Option (List String)}
    {st : DMState} {a : String} (h : a ∈ st.processed) :
    a ∈ (phase2c o pkg st).processed := by
  cases pkg with
  | none => exact h
  | some l =>
    rw [phase2c_some_eq]
    exact phase2b_processed_mono h

theorem phase2c_walksInv {o : PurgeOpts} {pkg : Option (List String)}
    {st : DMState} (h : WalksInv st) : WalksInv (phase2c o pkg st) := by
  cases pkg with
  | none => exact h
  | some l =>
    rw [phase2c_some_eq]
    exact phase2b_walksInv h

theorem phase2c_nodup {o : PurgeOpts} {pkg : Option (List String)}
    {st : DMState} (h : st.processed.Nodup) : (phase2c o pkg st).processed.Nodup := by
  cases pkg with
  | none => exact h
  | some l =>
    rw [phase2c_some_eq]
    exact phase2b_nodup h

theorem phase2c_excluded_untouched {o : PurgeOpts} {pkg : Option (List String)}
    {st : DMState} {d : String} (hd : isDMExcluded o d = true)
    (h : d ∉ st.processed ∧ d ∉ st.walks) :
    d ∉ (phase2c o pkg st).processed ∧ d ∉ (phase2c o pkg st).walks := by
  cases pkg with
  | none => exact h
  | some l =>
    rw [phase2c_some_eq]
    exact phase2b_excluded_untouched hd h

theorem phase2a_empty_walks (o : PurgeOpts) (dms : List String) :
    (phase2a o dms ⟨[], []⟩).walks = phase2aList o dms := by
  unfold phase2a
  rw [foldl_phase2aStep_walks]
  rfl

theorem phase2a_empty_processed_mem {o : PurgeOpts} {dms : List String} {a : String} :
    a ∈ (phase2a o dms ⟨[], []⟩).processed ↔ a ∈ phase2aList o dms := by
  unfold phase2a
  rw [foldl_phase2aStep_processed]
  rw [mem_foldl_markProcessed]
  simp

theorem phase2a_empty_nodup (o : PurgeOpts) (dms : List String) :
    (phase2a o dms ⟨[], []⟩).processed.Nodup := by
  unfold phase2a
  rw [foldl_phase2aStep_processed]
  exact nodup_foldl_markProcessed _ _ List.nodup_nil

theorem count_le_one_of_nodup {l : List String} (h : l.Nodup) (a : String) :
    l.count a ≤ 1 := by
  by_cases hm : a ∈ l
  · simp [List.count_eq_one_of_mem h hm]
  · simp [List.count_eq_zero.mpr hm]

theorem phase2a_empty_walksInv {o : PurgeOpts} {dms : List String}
    (hnd : dms.Nodup) : WalksInv (phase2a o dms ⟨[], []⟩) := by
  constructor
  · intro id
    rw [phase2a_empty_walks]
    exact count_le_one_of_nodup (nodup_phase2aList hnd) id
  · intro id hm
    rw [phase2a_empty_walks] at hm
    exact phase2a_empty_processed_mem.mpr hm

theorem dmPhases_excluded_untouched (inp : DiscoveryInput) (o : PurgeOpts)
    {d : String} (hd : isDMExcluded o d = true) :
    d ∉ (dmPhases inp o).processed ∧ d ∉ (dmPhases inp o).walks := by
  have h2a : d ∉ (phase2a o inp.openDMs ⟨[], []⟩).processed ∧
      d ∉ (phase2a o inp.openDMs ⟨[], []⟩).walks := by
    constructor
    · intro hm
      have := (mem_phase2aList.mp (phase2a_empty_processed_mem.mp hm)).2
      rw [hd] at this
      cases this
    · intro hm
      rw [phase2a_empty_walks] at hm
      have := (mem_phase2aList.mp hm).2
      rw [hd] at this
      cases this
  exact phase2c_excluded_untouched hd (phase2b_excluded_untouched hd h2a)

/-- C7: an excluded entity receives zero message-delete calls across phases
1 and 2a-2c — a guild id in the excluded-guilds set never appears in the
phase 1 SearchGuildMessages schedule, and a DM channel id in the excluded-DM
set never appears in the phases 2a-2c SearchDMMessages walk trace; message
delete calls are issued only inside the walker invocation for the
corresponding entity, so neither entity receives any. -/
theorem c7_exclusion_invariant (inp : DiscoveryInput) (o : PurgeOpts) :
    (∀ g ∈ o.excludedGuildIDs, g ∉ phase1GuildWalks inp o) ∧
    (∀ d ∈ o.excludedDMChannelIDs, d ∉ (dmPhases inp o).walks) := by
  constructor
  · intro g hg
    unfold phase1GuildWalks
    split_ifs with h
    · rw [h] at hg
      cases hg
    · intro hm
      have hf := (List.mem_filter.mp hm).2
      rw [Bool.not_eq_eq_eq_not, Bool.not_true] at hf
      have hx := isGuildExcluded_eq_true.mpr hg
      rw [hf] at hx
      cases hx
  · intro d hd
    exact (dmPhases_excluded_untouched inp o (isDMExcluded_eq_true.mpr hd)).2

/-- C7 witness: with guild "g" and DM "d" excluded, neither is walked. -/
theorem c7_exclusion_invariant_witness :
    "g" ∉ phase1GuildWalks ⟨["g", "h"], ["d", "e"], ["d"], some ["d"]⟩ ⟨["g"], ["d"]⟩ ∧
    "d" ∉ (dmPhases ⟨["g", "h"], ["d", "e"], ["d"], some ["d"]⟩ ⟨["g"], ["d"]⟩).walks := by
  have h := c7_exclusion_invariant ⟨["g", "h"], ["d", "e"], ["d"], some ["d"]⟩
    ⟨["g"], ["d"]⟩
  exact ⟨h.1 "g" (by decide), h.2 "d" (by decide)⟩

/-- C1 counterexample: DM channel "c" is discovered by phase 2a (it is in the
open DM list) but sits in the DM exclusion set; contrary to the claim, it is
not reaction-swept by phase 3b — exclusion keeps it out of the processed set
entirely, so the final sweep never visits it. -/
theorem c1_counterexample :
    "c" ∈ (DiscoveryInput.mk [] ["c"] [] none).openDMs ∧
    "c" ∉ phase3bSweeps (DiscoveryInput.mk [] ["c"] [] none) (PurgeOpts.mk [] ["c"]) := by
  decide

/-- C1 amended: phase 3b scans every conversation id in the processed set
with no exclusion check at sweep time; however, an id in the DM exclusion set
is never added to the processed set by phases 2a-2c, so a conversation
excluded from message deletion is never reaction-swept either. -/
theorem c1_sweep_exclusion (inp : DiscoveryInput) (o : PurgeOpts) :
    (∀ id ∈ (dmPhases inp o).processed, id ∈ phase3bSweeps inp o) ∧
    (∀ id ∈ o.excludedDMChannelIDs, id ∉ phase3bSweeps inp o) := by
  constructor
  · intro id h
    exact h
  · intro id hid
    exact (dmPhases_excluded_untouched inp o (isDMExcluded_eq_true.mpr hid)).1

/-- C1 amended witness: non-excluded open DM "a" is swept, excluded "c" is
not. -/
theorem c1_sweep_exclusion_witness :
    "a" ∈ phase3bSweeps ⟨[], ["a"], [], none⟩ ⟨[], ["c"]⟩ ∧
    "c" ∉ phase3bSweeps ⟨[], ["a"], [], none⟩ ⟨[], ["c"]⟩ := by
  have h := c1_sweep_exclusion ⟨[], ["a"], [], none⟩ ⟨[], ["c"]⟩
  exact ⟨h.1 "a" (by decide), h.2 "c" (by decide)⟩

/-- C6 counterexample, two independent failures of the claim as stated.
First: "c" appears in two DM-discovery sources (the open list and the
relationship-derived list) but is in the exclusion set; it appears zero
times — not exactly once — in the phase 3b reaction-sweep enumeration.
Second: with no exclusions at all, an id that the open-DM listing reports
twice and that is also relationship-derived appears in more than one source,
yet the message-deletion walker is invoked on it twice — the phase 2a loop
(main.go lines 1280-1297) runs SearchDMMessages on every channelsToProcess
entry without consulting processedDMs — refuting "invoked at most once
across those phases". -/
theorem c6_counterexample :
    ("c" ∈ (DiscoveryInput.mk [] ["c"] ["c"] none).openDMs ∧
     "c" ∈ (DiscoveryInput.mk [] ["c"] ["c"] none).relDMs ∧
     ¬ (phase3bSweeps (DiscoveryInput.mk [] ["c"] ["c"] none)
         (PurgeOpts.mk [] ["c"])).count "c" = 1) ∧
    ("c" ∈ (DiscoveryInput.mk [] ["c", "c"] ["c"] none).openDMs ∧
     "c" ∈ (DiscoveryInput.mk [] ["c", "c"] ["c"] none).relDMs ∧
     (dmPhases (DiscoveryInput.mk [] ["c", "c"] ["c"] none)
         (PurgeOpts.mk [] [])).walks.count "c" = 2) := by
  decide

/-- C6 amended: provided the open-DM listing is duplicate-free, every
conversation id — in particular one discovered by several of the three
sources — is walked by the message-deletion walker at most once across phases
2a-2c; an id discovered by at least one source appears exactly once in the
phase 3b sweep enumeration when it is not excluded, and zero times (with zero
walks) when it is excluded. -/
theorem c6_dedup_invariant (inp : DiscoveryInput) (o : PurgeOpts)
    (hnd : inp.openDMs.Nodup) :
    (∀ id, (dmPhases inp o).walks.count id ≤ 1) ∧
    (∀ id, isDMExcluded o id = false →
      (id ∈ inp.openDMs ∨ id ∈ inp.relDMs ∨ ∃ l, inp.packageDMs = some l ∧ id ∈ l) →
      (phase3bSweeps inp o).count id = 1) ∧
    (∀ id, isDMExcluded o id = true →
      (phase3bSweeps inp o).count id = 0 ∧ (dmPhases inp o).walks.count id = 0) := by
  have hInvEnd : WalksInv (dmPhases inp o) :=
    phase2c_walksInv (phase2b_walksInv (phase2a_empty_walksInv hnd))
  have hnodupEnd : (dmPhases inp o).processed.Nodup :=
    phase2c_nodup (phase2b_nodup (phase2a_empty_nodup o inp.openDMs))
  refine ⟨hInvEnd.1, ?_, ?_⟩
  · intro id hex hsrc
    have hmem : id ∈ (dmPhases inp o).processed := by
      rcases hsrc with h | h | ⟨l, hpkg, hl⟩
      · exact phase2c_processed_mono (phase2b_processed_mono
          (phase2a_empty_processed_mem.mpr (mem_phase2aList.mpr ⟨h, hex⟩)))
      · exact phase2c_processed_mono (phase2b_mem_processed _ h hex)
      · show id ∈ (phase2c o inp.packageDMs _).processed
        rw [hpkg, phase2c_some_eq]
        exact phase2b_mem_processed _ hl hex
    exact List.count_eq_one_of_mem hnodupEnd hmem
  · intro id hex
    have h := dmPhases_excluded_untouched inp o hex
    exact ⟨List.count_eq_zero.mpr h.1, List.count_eq_zero.mpr h.2⟩

/-- C6 amended witness: "a" is discovered by all three sources and swept
exactly once; excluded "z" is walked and swept zero times. -/
theorem c6_dedup_invariant_witness :
    (dmPhases ⟨[], ["a"], ["a"], some ["a"]⟩ ⟨[], ["z"]⟩).walks.count "a" ≤ 1 ∧
    (phase3bSweeps ⟨[], ["a"], ["a"], some ["a"]⟩ ⟨[], ["z"]⟩).count "a" = 1 ∧
    (phase3bSweeps ⟨[], ["a"], ["a"], some ["a"]⟩ ⟨[], ["z"]⟩).count "z" = 0 := by
  have h := c6_dedup_invariant ⟨[], ["a"], ["a"], some ["a"]⟩ ⟨[], ["z"]⟩ (by decide)
  exact ⟨h.1 "a", h.2.1 "a" (by decide) (Or.inl (by decide)),
    (h.2.2 "z" (by decide)).1⟩

/-- A message as the walkers see it after JSON decoding (main.go Message):
id, author id, owning channel id, and the search hit flag. -/
structure MessageM where
  id : String
  authorId : String
  channelId : String
  hit : Bool
deriving DecidableEq, Repr

/-- A decoded search response body (main.go SearchResult). -/
structure SearchResultM where
  totalResults : Nat
  messages : List (List MessageM)
  retry : Bool
deriving DecidableEq, Repr

/-- One response to a GET /channels/.../messages history page: HTTP status
and decoded message list. -/
structure HistPage where
  status : Nat
  msgs : List MessageM
deriving DecidableEq, Repr

/-- maxSearchIndexWaits (main.go line 33). -/
def maxSearchIndexWaits : Nat := 40

/-- One page's deletions inside iterateAndDeleteChannel (main.go lines
1024-1032): every message authored by the caller gets a DELETE whose status
comes from the delete oracle; 204/200/404 count toward the total, any other
status (0 models a transport error) is silently not counted. -/
def histPageDeleted (userId : String) (delStatus : String → Nat)
    (msgs : List MessageM) : Nat :=
  msgs.foldl
    (fun acc m =>
      if m.authorId = userId then
        if delStatus m.id = 204 ∨ delStatus m.id = 200 ∨ delStatus m.id = 404
        then acc + 1 else acc
      else acc)
    0

/-- Embedding of iterateAndDeleteChannel (main.go lines 992-1044) over the
script of successive history-page responses: stop quietly on 403 or an empty
page, fail on any other non-200 fetch, delete the caller's messages on each
page, and stop after a short page (fewer than the limit of 100).  The Bool
records whether the walk ended without a Go error; an exhausted script models
a transport failure on the next fetch. -/
def iterateAndDeleteChannel (userId : String) (delStatus : String → Nat) :
    List HistPage → Nat × Bool
  | [] => (0, false)
  | p :: rest =>
    if p.status = 403 then (0, true)
    else if p.status ≠ 200 then (0, false)
    else if p.msgs = [] then (0, true)
    else
      if p.msgs.length < 100 then (histPageDeleted userId delStatus p.msgs, true)
      else
        let r := iterateAndDeleteChannel userId delStatus rest
        (histPageDeleted userId delStatus p.msgs + r.1, r.2)

/-- The per-page state of the search deletion walkers: running totals, the
oldest caller-authored hit id seen on this page, the seen-this-page and
cross-page skippable id sets, and the trace of DELETE calls issued. -/
structure PageState where
  totalDeleted : Nat
  deletedThisRound : Nat
  oldestHitID : String
  seen : List String
  skipped : List String
  deleteCalls : List String
deriving DecidableEq, Repr

/-- One search hit processed by the conversation-scoped walker (main.go lines
924-966): for a caller-authored hit, fold its id into the oldest-seen cursor;
skip empty ids and ids already seen this page or already skippable; otherwise
mark seen and issue the DELETE (appended to deleteCalls), interpreting the
status: 204/200 count as deleted, 404 counts as deleted and marks skippable,
403 and 400 mark skippable, and anything else (including 0, a transport
error) changes nothing further. -/
def processDMHit (userId : String) (delStatus : String → Nat)
    (st : PageState) (m : MessageM) : PageState :=
  if m.authorId = userId ∧ m.hit = true then
    if m.id = "" ∨ m.id ∈ st.seen ∨ m.id ∈ st.skipped then
      { st with oldestHitID := olderSnowflakeID st.oldestHitID m.id }
    else if delStatus m.id = 204 ∨ delStatus m.id = 200 then
      { st with oldestHitID := olderSnowflakeID st.oldestHitID m.id,
                seen := st.seen ++ [m.id],
                deleteCalls := st.deleteCalls ++ [m.id],
                totalDeleted := st.totalDeleted + 1,
                deletedThisRound := st.deletedThisRound + 1 }
    else if delStatus m.id = 404 then
      { st with oldestHitID := olderSnowflakeID st.oldestHitID m.id,
                seen := st.seen ++ [m.id],
                deleteCalls := st.deleteCalls ++ [m.id],
                deletedThisRound := st.deletedThisRound + 1,
                skipped := st.skipped ++ [m.id] }
    else if delStatus m.id = 403 then
      { st with oldestHitID := olderSnowflakeID st.oldestHitID m.id,
                seen := st.seen ++ [m.id],
                deleteCalls := st.deleteCalls ++ [m.id],
                skipped := st.skipped ++ [m.id] }
    else if delStatus m.id = 400 then
      { st with oldestHitID := olderSnowflakeID st.oldestHitID m.id,
                seen := st.seen ++ [m.id],
                deleteCalls := st.deleteCalls ++ [m.id],
                skipped := st.skipped ++ [m.id] }
    else
      { st with oldestHitID := olderSnowflakeID st.oldestHitID m.id,
                seen := st.seen ++ [m.id],
                deleteCalls := st.deleteCalls ++ [m.id] }
  else st

/-- Processing of one conversation search page: the source iterates the
message groups in order, so the flattened list preserves the order. -/
def processDMPage (userId : String) (delStatus : String → Nat)
    (skipped0 : List String) (msgs : List MessageM) : PageState :=
  msgs.foldl (processDMHit userId delStatus)
    { totalDeleted := 0, deletedThisRound := 0, oldestHitID := "",
      seen := [], skipped := skipped0, deleteCalls := [] }

/-- Embedding of the SearchDMMessages loop (main.go lines 857-988) over the
script of successive search responses (status, decoded body).  Carried
state, in order: the 202/retry wait counter, the max_id cursor, the
cross-page skippable set and the running total.  A 202 or a body retry flag
waits and retries up to maxSearchIndexWaits; 403/400/404 and every other
non-200 status fall back to the history scan of the same channel (the two
source branches differ only in error wrapping); zero results end the walk;
otherwise the page is processed and the cursor advances to the predecessor
of the oldest hit, stopping when no hit was seen or no progress is possible.
The Bool records whether the walk ended without a Go error; an exhausted
script models a transport failure. -/
def searchDMLoop (userId : String) (delStatus : String → Nat)
    (histScript : List HistPage) :
    Nat → String → List String → Nat → List (Nat × SearchResultM) → Nat × Bool
  | _, _, _, total, [] => (total, false)
  | iwc, maxID, skipped, total, (status, body) :: rest =>
    if status = 202 then
      if iwc + 1 ≥ maxSearchIndexWaits then (total, false)
      else searchDMLoop userId delStatus histScript (iwc + 1) maxID skipped total rest
    else if status = 403 ∨ status = 400 ∨ status = 404 then
      let f := iterateAndDeleteChannel userId delStatus histScript
      (total + f.1, f.2)
    else if status ≠ 200 then
      let f := iterateAndDeleteChannel userId delStatus histScript
      (total + f.1, f.2)
    else if body.retry = true then
      if 0 + 1 ≥ maxSearchIndexWaits then (total, false)
      else searchDMLoop userId delStatus histScript 1 maxID skipped total rest
    else if body.totalResults = 0 ∨ body.messages = [] then (total, true)
    else
      let ps := processDMPage userId delStatus skipped body.messages.flatten
      if ps.oldestHitID = "" then (total + ps.totalDeleted, true)
      else if previousSnowflakeID ps.oldestHitID = maxID then
        (total + ps.totalDeleted, true)
      else
        searchDMLoop userId delStatus histScript 0
          (previousSnowflakeID ps.oldestHitID) ps.skipped (total + ps.totalDeleted) rest

/-- SearchDMMessages enters its loop with wait counter 0, no cursor bound,
an empty skippable set and zero deleted. -/
def searchDMMessages (userId : String) (delStatus : String → Nat)
    (histScript : List HistPage) (searchScript : List (Nat × SearchResultM)) :
    Nat × Bool :=
  searchDMLoop userId delStatus histScript 0 "" [] 0 searchScript

/-- C8: when the first search response of the conversation-scoped walker has
any non-success status — 403, 400, 404, or any other status that is neither
200 nor 202 — the walker falls back to the full history scan of that same
channel, and its returned count equals the history-scan count. -/
theorem c8_dm_search_fallback (userId : String) (delStatus : String → Nat)
    (histScript : List HistPage) (status : Nat) (body : SearchResultM)
    (rest : List (Nat × SearchResultM))
    (h200 : status ≠ 200) (h202 : status ≠ 202) :
    (searchDMMessages userId delStatus histScript ((status, body) :: rest)).1 =
      (iterateAndDeleteChannel userId delStatus histScript).1 := by
  simp only [searchDMMessages, searchDMLoop]
  rw [if_neg h202]
  by_cases h4 : status = 403 ∨ status = 400 ∨ status = 404
  · rw [if_pos h4]
    simp
  · rw [if_neg h4, if_pos h200]
    simp

/-- C8 witness: a first response of HTTP 403 makes the walker return the
history-scan count (here 1: the history page holds one caller-authored
message, deleted with 204, and one foreign message). -/
theorem c8_dm_search_fallback_witness :
    (searchDMMessages "u" (fun _ => 204)
        [HistPage.mk 200 [MessageM.mk "1" "u" "d" true, MessageM.mk "2" "v" "d" true]]
        [(403, SearchResultM.mk 0 [] false)]).1 =
      (iterateAndDeleteChannel "u" (fun _ => 204)
        [HistPage.mk 200 [MessageM.mk "1" "u" "d" true, MessageM.mk "2" "v" "d" true]]).1 ∧
    (iterateAndDeleteChannel "u" (fun _ => 204)
      [HistPage.mk 200 [MessageM.mk "1" "u" "d" true, MessageM.mk "2" "v" "d" true]]).1 = 1 := by
  constructor
  · exact c8_dm_search_fallback "u" (fun _ => 204) _ 403 (SearchResultM.mk 0 [] false)
      [] (by decide) (by decide)
  · decide

/-- One search hit processed by the guild-scoped walker (main.go lines
750-797): like the conversation variant, but a hit whose channel id is empty
is marked skippable (after being marked seen) instead of being delete-called;
the oldest-seen cursor is updated for every caller-authored hit before any
guard. -/
def processGuildHit (userId : String) (delStatus : String → Nat)
    (st : PageState) (m : MessageM) : PageState :=
  if m.authorId = userId ∧ m.hit = true then
    if m.id = "" ∨ m.id ∈ st.seen ∨ m.id ∈ st.skipped then
      { st with oldestHitID := olderSnowflakeID st.oldestHitID m.id }
    else if m.channelId = "" then
      { st with oldestHitID := olderSnowflakeID st.oldestHitID m.id,
                seen := st.seen ++ [m.id],
                skipped := st.skipped ++ [m.id] }
    else if delStatus m.id = 204 ∨ delStatus m.id = 200 then
      { st with oldestHitID := olderSnowflakeID st.oldestHitID m.id,
                seen := st.seen ++ [m.id],
                deleteCalls := st.deleteCalls ++ [m.id],
                totalDeleted := st.totalDeleted + 1,
                deletedThisRound := st.deletedThisRound + 1 }
    else if delStatus m.id = 404 then
      { st with oldestHitID := olderSnowflakeID st.oldestHitID m.id,
                seen := st.seen ++ [m.id],
                deleteCalls := st.deleteCalls ++ [m.id],
                deletedThisRound := st.deletedThisRound + 1,
                skipped := st.skipped ++ [m.id] }
    else if delStatus m.id = 403 then
      { st with oldestHitID := olderSnowflakeID st.oldestHitID m.id,
                seen := st.seen ++ [m.id],
                deleteCalls := st.deleteCalls ++ [m.id],
                skipped := st.skipped ++ [m.id] }
    else if delStatus m.id = 400 then
      { st with oldestHitID := olderSnowflakeID st.oldestHitID m.id,
                seen := st.seen ++ [m.id],
                deleteCalls := st.deleteCalls ++ [m.id],
                skipped := st.skipped ++ [m.id] }
    else
      { st with oldestHitID := olderSnowflakeID st.oldestHitID m.id,
                seen := st.seen ++ [m.id],
                deleteCalls := st.deleteCalls ++ [m.id] }
  else st

/-- Processing of one guild search page (messages in group order, flattened),
starting from the cross-page skippable set. -/
def processGuildPage (userId : String) (delStatus : String → Nat)
    (skipped0 : List String) (msgs : List MessageM) : PageState :=
  msgs.foldl (processGuildHit userId delStatus)
    { totalDeleted := 0, deletedThisRound := 0, oldestHitID := "",
      seen := [], skipped := skipped0, deleteCalls := [] }

/-- Invariant of the guild page fold: the page-start skippable ids stay
skippable, no delete call has an empty id, each id is delete-called at most
once, delete calls only target ids already marked seen, and never ids that
were skippable when the page started. -/
structure GuildPageInv (skipped0 : List String) (st : PageState) : Prop where
  skip_mono : ∀ id ∈ skipped0, id ∈ st.skipped
  no_empty : "" ∉ st.deleteCalls
  del_nodup : st.deleteCalls.Nodup
  del_seen : ∀ id ∈ st.deleteCalls, id ∈ st.seen
  del_not_skip0 : ∀ id ∈ st.deleteCalls, id ∉ skipped0

theorem guildPageInv_delete {skipped0 : List String} {st : PageState}
    {mid : String} {sk : List String}
    (h : GuildPageInv skipped0 st)
    (hne : mid ≠ "") (hseen : mid ∉ st.seen) (hskip : mid ∉ st.skipped)
    (hsk : sk = st.skipped ∨ sk = st.skipped ++ [mid])
    (t r : Nat) (old : String) :
    GuildPageInv skipped0
      (PageState.mk t r old (st.seen ++ [mid]) sk (st.deleteCalls ++ [mid])) := by
  have hsub : ∀ id ∈ st.skipped, id ∈ sk := by
    rcases hsk with rfl | rfl
    · exact fun id hid => hid
    · exact fun id hid => List.mem_append_left _ hid
  refine ⟨?_, ?_, ?_, ?_, ?_⟩
  · intro id hid
    exact hsub id (h.skip_mono id hid)
  · intro hm
    rcases List.mem_append.mp hm with hm | hm
    · exact h.no_empty hm
    · exact hne (List.mem_singleton.mp hm).symm
  · have hnotin : mid ∉ st.deleteCalls := fun hm => hseen (h.del_seen mid hm)
    simpa [List.nodup_append] using ⟨h.del_nodup, hnotin⟩
  · intro id hid
    rcases List.mem_append.mp hid with hm | hm
    · exact List.mem_append_left _ (h.del_seen id hm)
    · rw [List.mem_singleton.mp hm]
      exact List.mem_append_right _ (List.mem_singleton.mpr rfl)
  · intro id hid
    rcases List.mem_append.mp hid with hm | hm
    · exact h.del_not_skip0 id hm
    · rw [List.mem_singleton.mp hm]
      intro hid0
      exact hskip (h.skip_mono mid hid0)

theorem guildPageInv_step {skipped0 : List String} {userId : String}
    {delStatus : String → Nat} {st : PageState} (m : MessageM)
    (h : GuildPageInv skipped0 st) :
    GuildPageInv skipped0 (processGuildHit userId delStatus st m) := by
  unfold processGuildHit
  by_cases h1 : m.authorId = userId ∧ m.hit = true
  · rw [if_pos h1]
    by_cases h2 : m.id = "" ∨ m.id ∈ st.seen ∨ m.id ∈ st.skipped
    · rw [if_pos h2]
      exact ⟨h.skip_mono, h.no_empty, h.del_nodup, h.del_seen, h.del_not_skip0⟩
    · rw [if_neg h2]
      push_neg at h2
      obtain ⟨hne, hseen, hskip⟩ := h2
      by_cases h3 : m.channelId = ""
      · rw [if_pos h3]
        exact ⟨fun id hid => List.mem_append_left _ (h.skip_mono id hid),
               h.no_empty, h.del_nodup,
               fun id hid => List.mem_append_left _ (h.del_seen id hid),
               h.del_not_skip0⟩
      · rw [if_neg h3]
        by_cases h4 : delStatus m.id = 204 ∨ delStatus m.id = 200
        · rw [if_pos h4]
          exact guildPageInv_delete h hne hseen hskip (Or.inl rfl) _ _ _
        · rw [if_neg h4]
          by_cases h5 : delStatus m.id = 404
          · rw [if_pos h5]
            exact guildPageInv_delete h hne hseen hskip (Or.inr rfl) _ _ _
          · rw [if_neg h5]
            by_cases h6 : delStatus m.id = 403
            · rw [if_pos h6]
              exact guildPageInv_delete h hne hseen hskip (Or.inr rfl) _ _ _
            · rw [if_neg h6]
              by_cases h7 : delStatus m.id = 400
              · rw [if_pos h7]
                exact guildPageInv_delete h hne hseen hskip (Or.inr rfl) _ _ _
              · rw [if_neg h7]
                exact guildPageInv_delete h hne hseen hskip (Or.inl rfl) _ _ _
  · rw [if_neg h1]
    exact h

theorem guildPageInv_fold {skipped0 : List String} {userId : String}
    {delStatus : String → Nat} (msgs : List MessageM) (st : PageState)
    (h : GuildPageInv skipped0 st) :
    GuildPageInv skipped0 (msgs.foldl (processGuildHit userId delStatus) st) := by
  induction msgs generalizing st with
  | nil => exact h
  | cons m t ih => exact ih _ (guildPageInv_step m h)

theorem guildPageInv_page (userId : String) (delStatus : String → Nat)
    (skipped0 : List String) (msgs : List MessageM) :
    GuildPageInv skipped0 (processGuildPage userId delStatus skipped0 msgs) := by
  refine guildPageInv_fold msgs _ ⟨fun id hid => hid, ?_, List.nodup_nil, ?_, ?_⟩
  · intro hm
    cases hm
  · intro id hid
    cases hid
  · intro id hid
    cases hid

theorem processGuildHit_oldest (userId : String) (delStatus : String → Nat)
    (st : PageState) (m : MessageM) :
    (processGuildHit userId delStatus st m).oldestHitID =
      if m.authorId = userId ∧ m.hit = true
      then olderSnowflakeID st.oldestHitID m.id else st.oldestHitID := by
  unfold processGuildHit
  split_ifs <;> rfl

theorem foldl_guildHit_oldest (userId : String) (delStatus : String → Nat)
    (msgs : List MessageM) (st : PageState) :
    (msgs.foldl (processGuildHit userId delStatus) st).oldestHitID =
      msgs.foldl
        (fun o m => if m.authorId = userId ∧ m.hit = true
          then olderSnowflakeID o m.id else o) st.oldestHitID := by
  induction msgs generalizing st with
  | nil => rfl
  | cons m t ih =>
    rw [List.foldl_cons, List.foldl_cons, ih, processGuildHit_oldest]

theorem processGuildHit_grow (userId : String) (delStatus : String → Nat)
    (st : PageState) (m : MessageM) :
    (∀ id ∈ st.seen, id ∈ (processGuildHit userId delStatus st m).seen) ∧
    (∀ id ∈ st.skipped, id ∈ (processGuildHit userId delStatus st m).skipped) := by
  unfold processGuildHit
  split_ifs <;>
    exact ⟨fun id hid => by first | exact hid | exact List.mem_append_left _ hid,
           fun id hid => by first | exact hid | exact List.mem_append_left _ hid⟩

theorem processGuildHit_target (userId : String) (delStatus : String → Nat)
    {st : PageState} (m : MessageM) {id : String}
    (hch : m.authorId = userId → m.hit = true → m.id = id → m.channelId = "")
    (hJ : id ∉ st.deleteCalls ∧ (id ∈ st.skipped ∨ id ∉ st.seen)) :
    id ∉ (processGuildHit userId delStatus st m).deleteCalls ∧
    (id ∈ (processGuildHit userId delStatus st m).skipped ∨
     id ∉ (processGuildHit userId delStatus st m).seen) := by
  by_cases heq : m.id = id
  · unfold processGuildHit
    by_cases h1 : m.authorId = userId ∧ m.hit = true
    · rw [if_pos h1]
      have hch' : m.channelId = "" := hch h1.1 h1.2 heq
      by_cases h2 : m.id = "" ∨ m.id ∈ st.seen ∨ m.id ∈ st.skipped
      · rw [if_pos h2]
        exact hJ
      · rw [if_neg h2, if_pos hch']
        exact ⟨hJ.1,
          Or.inl (List.mem_append_right _ (List.mem_singleton.mpr heq.symm))⟩
    · rw [if_neg h1]
      exact hJ
  · have hId1 : ∀ l : List String, id ∉ l → id ∉ l ++ [m.id] := by
      intro l hl hm
      rcases List.mem_append.mp hm with hx | hx
      · exact hl hx
      · exact heq (List.mem_singleton.mp hx).symm
    have hId2 : ∀ l : List String, id ∈ l → id ∈ l ++ [m.id] :=
      fun l hl => List.mem_append_left _ hl
    unfold processGuildHit
    split_ifs
    · exact hJ
    · rcases hJ.2 with hsk | hse
      · exact ⟨hJ.1, Or.inl (hId2 _ hsk)⟩
      · exact ⟨hJ.1, Or.inr (hId1 _ hse)⟩
    · rcases hJ.2 with hsk | hse
      · exact ⟨hId1 _ hJ.1, Or.inl hsk⟩
      · exact ⟨hId1 _ hJ.1, Or.inr (hId1 _ hse)⟩
    · rcases hJ.2 with hsk | hse
      · exact ⟨hId1 _ hJ.1, Or.inl (hId2 _ hsk)⟩
      · exact ⟨hId1 _ hJ.1, Or.inr (hId1 _ hse)⟩
    · rcases hJ.2 with hsk | hse
      · exact ⟨hId1 _ hJ.1, Or.inl (hId2 _ hsk)⟩
      · exact ⟨hId1 _ hJ.1, Or.inr (hId1 _ hse)⟩
    · rcases hJ.2 with hsk | hse
      · exact ⟨hId1 _ hJ.1, Or.inl (hId2 _ hsk)⟩
      · exact ⟨hId1 _ hJ.1, Or.inr (hId1 _ hse)⟩
    · rcases hJ.2 with hsk | hse
      · exact ⟨hId1 _ hJ.1, Or.inl hsk⟩
      · exact ⟨hId1 _ hJ.1, Or.inr (hId1 _ hse)⟩
    · exact hJ

theorem foldl_guildHit_target (userId : String) (delStatus : String → Nat)
    {id : String} (msgs : List MessageM)
    (hch : ∀ m ∈ msgs, m.authorId = userId → m.hit = true → m.id = id →
      m.channelId = "")
    (st : PageState)
    (hJ : id ∉ st.deleteCalls ∧ (id ∈ st.skipped ∨ id ∉ st.seen)) :
    id ∉ (msgs.foldl (processGuildHit userId delStatus) st).deleteCalls ∧
    (id ∈ (msgs.foldl (processGuildHit userId delStatus) st).skipped ∨
     id ∉ (msgs.foldl (processGuildHit userId delStatus) st).seen) := by
  induction msgs generalizing st with
  | nil => exact hJ
  | cons m t ih =>
    exact ih (fun m' hm' => hch m' (List.mem_cons_of_mem _ hm')) _
      (processGuildHit_target userId delStatus m (hch m (List.mem_cons_self m t)) hJ)

theorem foldl_guildHit_seen_skip_mono (userId : String) (delStatus : String → Nat)
    {id : String} (msgs : List MessageM) (st : PageState)
    (h : id ∈ st.seen ∨ id ∈ st.skipped) :
    id ∈ (msgs.foldl (processGuildHit userId delStatus) st).seen ∨
    id ∈ (msgs.foldl (processGuildHit userId delStatus) st).skipped := by
  induction msgs generalizing st with
  | nil => exact h
  | cons m t ih =>
    refine ih _ ?_
    rcases h with hs | hk
    · exact Or.inl ((processGuildHit_grow userId delStatus st m).1 id hs)
    · exact Or.inr ((processGuildHit_grow userId delStatus st m).2 id hk)

theorem processGuildHit_establish (userId : String) (delStatus : String → Nat)
    (st : PageState) {m : MessageM}
    (hq : m.authorId = userId ∧ m.hit = true) (hne : m.id ≠ "") :
    m.id ∈ (processGuildHit userId delStatus st m).seen ∨
    m.id ∈ (processGuildHit userId delStatus st m).skipped := by
  unfold processGuildHit
  rw [if_pos hq]
  by_cases h2 : m.id = "" ∨ m.id ∈ st.seen ∨ m.id ∈ st.skipped
  · rw [if_pos h2]
    rcases h2 with he | hs | hk
    · exact absurd he hne
    · exact Or.inl hs
    · exact Or.inr hk
  · rw [if_neg h2]
    split_ifs <;>
      exact Or.inl (List.mem_append_right _ (List.mem_singleton.mpr rfl))

/-- C10 counterexample: a caller-authored hit whose message id and channel id
are both empty is dropped by the empty-id guard before the channel-id check,
so — contrary to the claim — it is not added to the skippable set (the
skippable set stays empty). -/
theorem c10_counterexample :
    (MessageM.mk "" "u" "" true).channelId = "" ∧
    (MessageM.mk "" "u" "" true).authorId = "u" ∧
    (MessageM.mk "" "u" "" true).hit = true ∧
    (processGuildPage "u" (fun _ => 204) [] [MessageM.mk "" "u" "" true]).skipped
      = [] := by
  decide

/-- C10 amended: over one guild search page, (i) ids already skippable when
the page starts are never delete-called, (ii) no delete call carries an empty
id, (iii) every id is delete-called at most once thanks to the seen-this-page
bookkeeping, (iv) the oldest-seen cursor folds over every caller-authored
hit, including hits that are skipped or never delete-called, and (v) a
non-empty id outside the initial skip set, all of whose hits on the page
carry an empty channel id, is added to the skippable set and never
delete-called. -/
theorem c10_guild_page_guards (userId : String) (delStatus : String → Nat)
    (skipped0 : List String) (msgs : List MessageM) :
    (∀ id ∈ skipped0,
      id ∉ (processGuildPage userId delStatus skipped0 msgs).deleteCalls) ∧
    ("" ∉ (processGuildPage userId delStatus skipped0 msgs).deleteCalls) ∧
    (∀ id, (processGuildPage userId delStatus skipped0 msgs).deleteCalls.count id ≤ 1) ∧
    ((processGuildPage userId delStatus skipped0 msgs).oldestHitID =
      msgs.foldl
        (fun o m => if m.authorId = userId ∧ m.hit = true
          then olderSnowflakeID o m.id else o) "") ∧
    (∀ id, id ≠ "" → id ∉ skipped0 →
      (∀ m ∈ msgs, m.authorId = userId → m.hit = true → m.id = id →
        m.channelId = "") →
      (∃ m, m ∈ msgs ∧ m.authorId = userId ∧ m.hit = true ∧ m.id = id) →
      id ∈ (processGuildPage userId delStatus skipped0 msgs).skipped ∧
      id ∉ (processGuildPage userId delStatus skipped0 msgs).deleteCalls) := by
  have hinv := guildPageInv_page userId delStatus skipped0 msgs
  refine ⟨?_, hinv.no_empty, ?_, ?_, ?_⟩
  · intro id hid hmem
    exact hinv.del_not_skip0 id hmem hid
  · intro id
    exact count_le_one_of_nodup hinv.del_nodup id
  · exact foldl_guildHit_oldest userId delStatus msgs _
  · intro id hne hsk0 hch hex
    obtain ⟨m, hm, hq1, hq2, hq3⟩ := hex
    obtain ⟨l1, l2, rfl⟩ := List.append_of_mem hm
    have hch1 : ∀ m' ∈ l1, m'.authorId = userId → m'.hit = true → m'.id = id →
        m'.channelId = "" :=
      fun m' hm' => hch m' (List.mem_append_left _ hm')
    have hch2 : ∀ m' ∈ l2, m'.authorId = userId → m'.hit = true → m'.id = id →
        m'.channelId = "" :=
      fun m' hm' => hch m'
        (List.mem_append_right _ (List.mem_cons_of_mem _ hm'))
    have hchm : m.channelId = "" := hch m
      (List.mem_append_right _ (List.mem_cons_self m l2)) hq1 hq2 hq3
    unfold processGuildPage
    rw [List.foldl_append, List.foldl_cons]
    have hJ1 := foldl_guildHit_target userId delStatus l1 hch1
      { totalDeleted := 0, deletedThisRound := 0, oldestHitID := "",
        seen := [], skipped := skipped0, deleteCalls := [] }
      ⟨List.not_mem_nil id, Or.inr (List.not_mem_nil id)⟩
    have hJ2 := processGuildHit_target userId delStatus m
      (fun _ _ _ => hchm) hJ1
    have hK2 : id ∈ (processGuildHit userId delStatus
        (l1.foldl (processGuildHit userId delStatus)
          { totalDeleted := 0, deletedThisRound := 0, oldestHitID := "",
            seen := [], skipped := skipped0, deleteCalls := [] }) m).seen ∨
        id ∈ (processGuildHit userId delStatus
        (l1.foldl (processGuildHit userId delStatus)
          { totalDeleted := 0, deletedThisRound := 0, oldestHitID := "",
            seen := [], skipped := skipped0, deleteCalls := [] }) m).skipped := by
      have := processGuildHit_establish userId delStatus
        (l1.foldl (processGuildHit userId delStatus)
          { totalDeleted := 0, deletedThisRound := 0, oldestHitID := "",
            seen := [], skipped := skipped0, deleteCalls := [] })
        ⟨hq1, hq2⟩ (hq3 ▸ hne)
      rw [hq3] at this
      exact this
    have hJ3 := foldl_guildHit_target userId delStatus l2 hch2 _ hJ2
    have hK3 := foldl_guildHit_seen_skip_mono userId delStatus l2 _ hK2
    refine ⟨?_, hJ3.1⟩
    rcases hJ3.2 with hs | hns
    · exact hs
    · rcases hK3 with hs | hs
      · exact absurd hs hns
      · exact hs

/-- C10 amended witness: on a page with a deletable hit "9" and a hit "7"
with an empty channel id, and "s" already skippable: "s" is not
delete-called, "7" lands in the skippable set and is not delete-called, and
the oldest-seen cursor saw both hits. -/
theorem c10_guild_page_guards_witness :
    "s" ∉ (processGuildPage "u" (fun _ => 204) ["s"]
      [MessageM.mk "9" "u" "c1" true, MessageM.mk "7" "u" "" true]).deleteCalls ∧
    "7" ∈ (processGuildPage "u" (fun _ => 204) ["s"]
      [MessageM.mk "9" "u" "c1" true, MessageM.mk "7" "u" "" true]).skipped ∧
    "7" ∉ (processGuildPage "u" (fun _ => 204) ["s"]
      [MessageM.mk "9" "u" "c1" true, MessageM.mk "7" "u" "" true]).deleteCalls ∧
    (processGuildPage "u" (fun _ => 204) ["s"]
      [MessageM.mk "9" "u" "c1" true, MessageM.mk "7" "u" "" true]).oldestHitID =
      olderSnowflakeID (olderSnowflakeID "" "9") "7" := by
  have h := c10_guild_page_guards "u" (fun _ => 204) ["s"]
    [MessageM.mk "9" "u" "c1" true, MessageM.mk "7" "u" "" true]
  have h7 := h.2.2.2.2 "7" (by decide) (by decide) (by decide)
    ⟨MessageM.mk "7" "u" "" true, by decide⟩
  exact ⟨h.1 "s" (by decide), h7.1, h7.2, h.2.2.2.1⟩

/-- Uppercase hex digit (Go's upperhex table): 48 is the code of the zero
digit, 65 the code of the letter A. -/
def upperHexDigit (n : Nat) : Char :=
  if n < 10 then Char.ofNat (48 + n) else Char.ofNat (65 + (n - 10))

/-- The %XX escape of one byte, uppercase hex, as Go's url escaper emits. -/
def percentEncodeByte (b : Nat) : List Char :=
  ['%', upperHexDigit (b / 16), upperHexDigit (b % 16)]

/-- Embedding of Go net/url shouldEscape(c, encodePathSegment), written over
byte values: alphanumerics (a-z 97-122, A-Z 65-90, 0-9 48-57) and the
unreserved marks - _ . ~ (45 95 46 126) are never escaped; of the sub-delims
$ & + , / : ; = ? @ (36 38 43 44 47 58 59 61 63 64) the path-segment mode
escapes exactly / ; , ? (47 59 44 63); every other byte — in particular
every byte of a multi-byte UTF-8 character, which is at least 128 — is
escaped. -/
def shouldEscapePathSegment (b : Nat) : Bool :=
  if (97 ≤ b ∧ b ≤ 122) ∨ (65 ≤ b ∧ b ≤ 90) ∨ (48 ≤ b ∧ b ≤ 57) then false
  else if b = 45 ∨ b = 95 ∨ b = 46 ∨ b = 126 then false
  else if b = 36 ∨ b = 38 ∨ b = 43 ∨ b = 44 ∨ b = 47 ∨ b = 58 ∨ b = 59 ∨
          b = 61 ∨ b = 63 ∨ b = 64 then
    decide (b = 47 ∨ b = 59 ∨ b = 44 ∨ b = 63)
  else true

/-- Embedding of Go url.PathEscape: every byte of the string's UTF-8 encoding
that shouldEscape deems unsafe becomes %XX; the remaining bytes (always
ASCII) stay verbatim. -/
def pathEscape (s : String) : String :=
  String.mk
    (((goBytes s).map
      (fun b => if shouldEscapePathSegment b then percentEncodeByte b
                else [Char.ofNat b])).flatten)

/-- An emoji descriptor (main.go EmojiInfo): a nil id marks a built-in
unicode emoji, a custom emoji carries its numeric snowflake id string. -/
structure EmojiInfo where
  id : Option String
  name : String
deriving DecidableEq, Repr

/-- Embedding of formatEmojiForURL (main.go lines 1053-1060). -/
def formatEmojiForURL (e : EmojiInfo) : String :=
  match e.id with
  | some i => if i = "" then pathEscape e.name else e.name ++ ":" ++ i
  | none => pathEscape e.name

theorem shouldEscape_high {b : Nat} (hb : 128 ≤ b) :
    shouldEscapePathSegment b = true := by
  have h1 : ¬((97 ≤ b ∧ b ≤ 122) ∨ (65 ≤ b ∧ b ≤ 90) ∨ (48 ≤ b ∧ b ≤ 57)) := by
    omega
  have h2 : ¬(b = 45 ∨ b = 95 ∨ b = 46 ∨ b = 126) := by omega
  have h3 : ¬(b = 36 ∨ b = 38 ∨ b = 43 ∨ b = 44 ∨ b = 47 ∨ b = 58 ∨ b = 59 ∨
      b = 61 ∨ b = 63 ∨ b = 64) := by omega
  unfold shouldEscapePathSegment
  rw [if_neg h1, if_neg h2, if_neg h3]

theorem pathEscape_all_escaped (s : String) (h : ∀ b ∈ goBytes s, 128 ≤ b) :
    pathEscape s = String.mk (((goBytes s).map percentEncodeByte).flatten) := by
  unfold pathEscape
  have hmap : (goBytes s).map
      (fun b => if shouldEscapePathSegment b then percentEncodeByte b
                else [Char.ofNat b]) = (goBytes s).map percentEncodeByte := by
    apply List.map_congr_left
    intro b hb
    rw [if_pos (shouldEscape_high (h b hb))]
  rw [hmap]

/-- C9: a custom emoji — non-null, non-empty id; the source inspects nothing
beyond non-emptiness, so every numeric id is covered — formats as the literal
name ++ ":" ++ id with no percent-encoding applied; a unicode emoji (null
id) formats as url.PathEscape of its name, which for a name whose UTF-8
bytes are all at least 128 (true of every emoji character) is exactly the
percent-encoded byte sequence, one %XX triple per byte. -/
theorem c9_emoji_formatting :
    (∀ (e : EmojiInfo) (i : String), e.id = some i → i ≠ "" →
      formatEmojiForURL e = e.name ++ ":" ++ i) ∧
    (∀ e : EmojiInfo, e.id = none →
      formatEmojiForURL e = pathEscape e.name ∧
      ((∀ b ∈ goBytes e.name, 128 ≤ b) →
        formatEmojiForURL e =
          String.mk (((goBytes e.name).map percentEncodeByte).flatten))) := by
  constructor
  · intro e i hi hne
    unfold formatEmojiForURL
    rw [hi]
    show (if i = "" then pathEscape e.name else e.name ++ ":" ++ i) = _
    rw [if_neg hne]
  · intro e hid
    unfold formatEmojiForURL
    rw [hid]
    exact ⟨rfl, fun h => pathEscape_all_escaped e.name h⟩

/-- C9 witness: custom emoji name "pepe", id "555" formats to the literal
"pepe:555"; the unicode thumbs-up emoji formats to the percent-encoding of
its four UTF-8 bytes, "%F0%9F%91%8D". -/
theorem c9_emoji_formatting_witness :
    formatEmojiForURL (EmojiInfo.mk (some "555") "pepe") = "pepe" ++ ":" ++ "555" ∧
    formatEmojiForURL (EmojiInfo.mk none "👍") = pathEscape "👍" ∧
    formatEmojiForURL (EmojiInfo.mk none "👍") = "%F0%9F%91%8D" := by
  have h1 := c9_emoji_formatting.1 (EmojiInfo.mk (some "555") "pepe") "555" rfl
    (by decide)
  have h2 := c9_emoji_formatting.2 (EmojiInfo.mk none "👍") rfl
  exact ⟨h1, h2.1, (h2.2 (by decide)).trans (by decide)⟩
